import Mathlib

/-!
Shallow embedding of the `async-log-watch` tailing engine
(`src/src/log_watcher.rs`) and verification of its specification claims.

File contents are modelled as `List Char` (the test vectors are ASCII, so
char counts agree with the byte counts used by Rust's `String::len` and
`read_line`).  The `HashMap`s (`log_callbacks`, `file_positions`) are
modelled as association lists; sinks (callbacks) are opaque identifiers,
and each sink invocation is recorded as a `Delivery`.  The per-path work
spawned by `monitoring` is modelled by the pure function `dispatch`,
parameterised by an `Env` describing the fallible I/O outcomes (open,
seek, read) of that dispatch.
-/

namespace AsyncLogWatch

/-- File bytes, modelled as ASCII characters. -/
abbrev Bytes := List Char

/-- Embeds `ErrorKind` from `log_watcher.rs` (the `std::io::Error` payloads are
dropped: the claims only concern the kind and path). -/
inductive ErrorKind where
  | FileOpenError
  | FileSeekError
  deriving DecidableEq, Repr

/-- Embeds `LogError` from `log_watcher.rs`. -/
structure LogError where
  kind : ErrorKind
  path : String
  deriving DecidableEq, Repr

/-- Sinks (log callbacks) are opaque: we track only their identity. -/
abbrev CallbackId := Nat

/-- One invocation of a sink: `callback(line, error)`. -/
structure Delivery where
  sink : CallbackId
  line : Bytes
  error : Option LogError
  deriving DecidableEq, Repr

/-- Association-list lookup, the model of `HashMap::get`. -/
def alookup {α : Type} (m : List (String × α)) (k : String) : Option α :=
  match m with
  | [] => none
  | (k', v) :: rest => if k = k' then some v else alookup rest k

/-- Association-list erase, the model of `HashMap::remove`. -/
def aerase {α : Type} (m : List (String × α)) (k : String) : List (String × α) :=
  match m with
  | [] => []
  | (k', v) :: rest => if k = k' then aerase rest k else (k', v) :: aerase rest k

/-- Association-list insert-or-overwrite, the model of `HashMap::insert`. -/
def ainsert {α : Type} (m : List (String × α)) (k : String) (v : α) :
    List (String × α) :=
  (k, v) :: aerase m k

/-- The value `u64::MAX`, the sentinel `monitoring` stores for an unresolved offset. -/
def UMAX : Nat := 2 ^ 64 - 1

/-- The state owned by a `LogWatcher`: the callback registry, and the
`notify` watcher (`none` before `monitoring` stores one; afterwards the
list of paths subscribed via `watch`). -/
structure LogWatcher where
  log_callbacks : List (String × CallbackId)
  watched : Option (List String)
  deriving DecidableEq, Repr

/-- Embeds `LogWatcher::new`. -/
def LogWatcher.new : LogWatcher := ⟨[], none⟩

/-- Embeds `LogWatcher::register`.  Path normalisation (`make_absolute_path`,
built on the external `shellexpand`/`current_dir` collaborators) is passed
in as `norm`.  The body only inserts into `log_callbacks`; the watcher is
not touched. -/
def register (norm : String → String) (w : LogWatcher) (path : String)
    (cb : CallbackId) : LogWatcher :=
  { w with log_callbacks := ainsert w.log_callbacks (norm path) cb }

/-- Embeds `LogWatcher::change_file_path`.  The old path is normalised, the new
one is inserted as given; if the old path has no entry nothing happens.
When a watcher exists, the old path is unsubscribed and the new one
subscribed. -/
def change_file_path (norm : String → String) (w : LogWatcher)
    (old_path new_path : String) : LogWatcher :=
  match alookup w.log_callbacks (norm old_path) with
  | none => w
  | some cb =>
    { log_callbacks := ainsert (aerase w.log_callbacks (norm old_path)) new_path cb
      watched := w.watched.map
        (fun ws => new_path :: ws.filter (fun q => q ≠ norm old_path)) }

/-- Embeds `LogWatcher::stop_monitoring_file`: removes the (normalised) path from
the registry and unsubscribes it when a watcher exists. -/
def stop_monitoring_file (norm : String → String) (w : LogWatcher)
    (path : String) : LogWatcher :=
  { log_callbacks := aerase w.log_callbacks (norm path)
    watched := w.watched.map (fun ws => ws.filter (fun q => q ≠ norm path)) }

/-- The start of `LogWatcher::monitoring`: a watcher is created and every
path currently in `log_callbacks` is subscribed with `watch`. -/
def monitoring_start (w : LogWatcher) : LogWatcher :=
  { w with watched := some (w.log_callbacks.map Prod.fst) }

/-- Embeds `BufReader::read_line` at the current position: consumes bytes up to
and including the first newline, or to end of file. -/
def readLine : Bytes → Bytes
  | [] => []
  | c :: cs => if c = '\n' then [c] else c :: readLine cs

/-- Embeds `line.ends_with('\n')`. -/
def endsNl (l : Bytes) : Bool := l.getLast? = some '\n'

theorem readLine_length_le (bs : Bytes) : (readLine bs).length ≤ bs.length := by
  induction bs with
  | nil => simp [readLine]
  | cons c cs ih =>
    simp only [readLine]
    by_cases h : c = '\n' <;> simp [h] <;> omega

/-- The loop of `find_last_line`: read a line; if nothing was read or the
line is not newline-terminated, stop and return the recorded start of the
last complete line; otherwise record the position where this line began
and advance past it.  The loop terminates because every iteration
consumes at least one byte, so it is given `content.length + 1` fuel,
which `findLastLineAux_spec` shows is never exhausted. -/
def findLastLineAux : Nat → Bytes → Nat → Nat → Nat
  | 0, _, lls, _ => lls
  | fuel + 1, rest, lls, cp =>
    if (readLine rest).length = 0 ∨ endsNl (readLine rest) = false then lls
    else findLastLineAux fuel (rest.drop (readLine rest).length) cp
      (cp + (readLine rest).length)

/-- Embeds `find_last_line` from `log_watcher.rs`, as a function of the file
content (the reader starts at position 0). -/
def find_last_line (content : Bytes) : Nat :=
  findLastLineAux (content.length + 1) content 0 0

/-- The newline-stripping done after a full line is read: pop the `'\n'`,
then pop a preceding `'\r'` when present. -/
def stripLine (l : Bytes) : Bytes :=
  if endsNl l then
    if l.dropLast.getLast? = some '\r' then l.dropLast.dropLast else l.dropLast
  else l

/-- The I/O outcomes of one dispatch: `content` is the file's bytes
(`none` when `File::open` fails), and `seekOk`/`readOk` tell whether the
seek and the tail `read_line` succeed. -/
structure Env where
  content : Option Bytes
  seekOk : Bool
  readOk : Bool

/-- The result of one dispatched task: the updated position map, the sink
invocations it performed, and whether the task panicked (the `.unwrap()`
on the tail `read_line`). -/
structure DispatchOut where
  positions : List (String × Nat)
  deliveries : List Delivery
  panicked : Bool
  deriving DecidableEq, Repr

/-- One unit of work spawned by `monitoring` for a modified path: look up
the sink; create-or-get the position entry (sentinel `UMAX`); open the
file; resolve a sentinel offset with `find_last_line`; seek; read one
line; if a full newline-terminated line was read, advance the offset by
its length and deliver the stripped text.  Open and seek failures are
delivered as `LogError`s; a read failure hits `.unwrap()` and panics. -/
def dispatch (cbs : List (String × CallbackId)) (positions : List (String × Nat))
    (path : String) (env : Env) : DispatchOut :=
  match alookup cbs path with
  | none => ⟨positions, [], false⟩
  | some cb =>
    let pos0 := (alookup positions path).getD UMAX
    let positions1 := ainsert positions path pos0
    match env.content with
    | none => ⟨positions1, [⟨cb, [], some ⟨ErrorKind.FileOpenError, path⟩⟩], false⟩
    | some content =>
      let pos1 := if pos0 = UMAX then find_last_line content else pos0
      let positions2 := ainsert positions1 path pos1
      if env.seekOk then
        if env.readOk then
          let line := readLine (content.drop pos1)
          if 0 < line.length ∧ endsNl line = true then
            ⟨ainsert positions2 path (pos1 + line.length),
              [⟨cb, stripLine line, none⟩], false⟩
          else ⟨positions2, [], false⟩
        else ⟨positions2, [], true⟩
      else ⟨positions2, [⟨cb, [], some ⟨ErrorKind.FileSeekError, path⟩⟩], false⟩

/-- The event loop: each qualifying (data-modification) notification's
path is dispatched in turn.  Sequencing them is faithful because every
spawned task holds both the registry lock and the position-map lock for
its entire body (see `dispatchTaskTrace`), so tasks are serialised. -/
def dispatchMany (cbs : List (String × CallbackId))
    (positions : List (String × Nat)) (events : List (String × Env)) :
    List (String × Nat) × List Delivery :=
  match events with
  | [] => (positions, [])
  | (p, e) :: rest =>
    let out := dispatch cbs positions p e
    let tail := dispatchMany cbs out.positions rest
    (tail.1, out.deliveries ++ tail.2)

/-- Scenario builder: starting from file content `pre`, each line of `ls`
is appended and followed by one qualifying notification for `p` (all I/O
succeeding). -/
def lineEventsFrom (p : String) (pre : Bytes) : List Bytes → List (String × Env)
  | [] => []
  | l :: ls => (p, ⟨some (pre ++ l), true, true⟩) :: lineEventsFrom p (pre ++ l) ls

/-- A complete line: newline-terminated, with no interior newline. -/
def LineOk (l : Bytes) : Prop := '\n' ∉ l.dropLast ∧ l.getLast? = some '\n'

instance (l : Bytes) : Decidable (LineOk l) := by
  unfold LineOk
  infer_instance

/-- The two `async_std::sync::Mutex`es of the engine. -/
inductive LockId where
  | callbacksLock
  | positionsLock
  deriving DecidableEq, Repr

/-- The observable steps of the task spawned by `monitoring` for one
path, in program order. -/
inductive Action where
  | lockOf : LockId → Action
  | unlockOf : LockId → Action
  | fileOpen : Action
  | fileSeek : Action
  | fileRead : Action
  | invokeSink : Action
  deriving DecidableEq, Repr

/-- The spawned task's steps on the success path (registered path, open,
seek and read succeed, full line read), read off the async block in
`monitoring`: `log_callbacks.lock().await` and
`file_positions_clone.lock().await` are taken before `File::open` and
their guards are dropped only at the end of the block, after
`callback(line, None).await`. -/
def dispatchTaskTrace : List Action :=
  [Action.lockOf LockId.callbacksLock,
   Action.lockOf LockId.positionsLock,
   Action.fileOpen,
   Action.fileSeek,
   Action.fileRead,
   Action.invokeSink,
   Action.unlockOf LockId.positionsLock,
   Action.unlockOf LockId.callbacksLock]

/-- The locks held when the first occurrence of `a` in the trace
executes. -/
def locksHeldAtAux : List Action → List LockId → Action → List LockId
  | [], _, _ => []
  | x :: xs, held, a =>
    if x = a then held
    else
      match x with
      | Action.lockOf l => locksHeldAtAux xs (l :: held) a
      | Action.unlockOf l => locksHeldAtAux xs (held.filter (fun l' => l' ≠ l)) a
      | _ => locksHeldAtAux xs held a

def locksHeldAt (tr : List Action) (a : Action) : List LockId :=
  locksHeldAtAux tr [] a

/-! ### Map lemmas -/

theorem alookup_aerase {α : Type} (m : List (String × α)) (k k' : String) :
    alookup (aerase m k) k' = if k' = k then none else alookup m k' := by
  induction m with
  | nil => simp [aerase, alookup]
  | cons p rest ih =>
    obtain ⟨a, b⟩ := p
    by_cases hka : k = a
    · subst hka
      rw [show aerase ((k, b) :: rest) k = aerase rest k from by simp [aerase]]
      rw [ih]
      by_cases h2 : k' = k
      · simp [h2]
      · simp [alookup, h2]
    · rw [show aerase ((a, b) :: rest) k = (a, b) :: aerase rest k from by
        simp [aerase, hka]]
      by_cases h2 : k' = a
      · subst h2
        have hne : ¬k' = k := fun hh => hka hh.symm
        simp [alookup, hne]
      · simp [alookup, h2, ih]

theorem alookup_ainsert {α : Type} (m : List (String × α)) (k k' : String) (v : α) :
    alookup (ainsert m k v) k' = if k' = k then some v else alookup m k' := by
  by_cases h : k' = k <;> simp [ainsert, alookup, alookup_aerase, h]

theorem alookup_ainsert_self {α : Type} (m : List (String × α)) (k : String) (v : α) :
    alookup (ainsert m k v) k = some v := by
  simp [alookup_ainsert]

/-- Re-inserting the value already stored leaves every lookup unchanged. -/
theorem alookup_ainsert_of_lookup {α : Type} (m : List (String × α)) (k : String)
    (v : α) (h : alookup m k = some v) (q : String) :
    alookup (ainsert m k v) q = alookup m q := by
  rw [alookup_ainsert]
  split
  · next he => rw [he, h]
  · rfl

/-! ### Line-reading lemmas -/

theorem readLine_no_nl (bs : Bytes) (h : '\n' ∉ bs) : readLine bs = bs := by
  induction bs with
  | nil => rfl
  | cons c cs ih =>
    simp only [List.mem_cons, not_or] at h
    have hc : ¬c = '\n' := fun hh => h.1 hh.symm
    simp [readLine, hc, ih h.2]

theorem readLine_append_nl (a b : Bytes) (h : '\n' ∉ a) :
    readLine (a ++ '\n' :: b) = a ++ ['\n'] := by
  induction a with
  | nil => simp [readLine]
  | cons c cs ih =>
    simp only [List.mem_cons, not_or] at h
    have hc : ¬c = '\n' := fun hh => h.1 hh.symm
    simp [readLine, hc, ih h.2]

theorem endsNl_concat (a : Bytes) : endsNl (a ++ ['\n']) = true := by
  simp [endsNl]

theorem endsNl_eq_false_of_no_nl (bs : Bytes) (h : '\n' ∉ bs) :
    endsNl bs = false := by
  simp only [endsNl, decide_eq_false_iff_not]
  intro hc
  obtain ⟨hne, he⟩ := List.mem_getLast?_eq_getLast (l := bs) (x := '\n') (by simp [hc])
  exact h (he ▸ List.getLast_mem hne)

/-- A `LineOk` line is its interior followed by the newline. -/
theorem LineOk.decomp (l : Bytes) (h : LineOk l) :
    l = l.dropLast ++ ['\n'] ∧ '\n' ∉ l.dropLast := by
  obtain ⟨h1, h2⟩ := h
  refine ⟨?_, h1⟩
  have hmem : '\n' ∈ l.getLast? := by simp [h2]
  exact (List.dropLast_append_getLast? '\n' hmem).symm

theorem readLine_of_lineOk (l rest : Bytes) (h : LineOk l) :
    readLine (l ++ rest) = l := by
  obtain ⟨hd, hn⟩ := LineOk.decomp l h
  calc readLine (l ++ rest) = readLine (l.dropLast ++ '\n' :: rest) := by
        rw [hd]; simp
    _ = l.dropLast ++ ['\n'] := readLine_append_nl _ _ hn
    _ = l := hd.symm

theorem LineOk.length_pos (l : Bytes) (h : LineOk l) : 0 < l.length := by
  obtain ⟨hd, _⟩ := LineOk.decomp l h
  rw [hd]
  simp

theorem LineOk.endsNl (l : Bytes) (h : LineOk l) : AsyncLogWatch.endsNl l = true := by
  obtain ⟨hd, _⟩ := LineOk.decomp l h
  rw [hd]
  exact endsNl_concat _

/-! ### `find_last_line` -/

/-- Unfolding one loop iteration of `find_last_line` when a full line
heads the remaining input. -/
theorem findLastLineAux_step (fuel : Nat) (l rest : Bytes) (h : LineOk l)
    (lls cp : Nat) :
    findLastLineAux (fuel + 1) (l ++ rest) lls cp =
      findLastLineAux fuel rest cp (cp + l.length) := by
  have hr : readLine (l ++ rest) = l := readLine_of_lineOk l rest h
  have hp : 0 < l.length := LineOk.length_pos l h
  have he : endsNl l = true := LineOk.endsNl l h
  rw [findLastLineAux, if_neg]
  · rw [hr]
    simp
  · rw [hr, he]
    simp only [not_or]
    exact ⟨by omega, by simp⟩

/-- The loop stops on input with no complete line (empty, or a fragment
with no newline), returning the recorded start. -/
theorem findLastLineAux_stop (fuel : Nat) (frag : Bytes) (h : '\n' ∉ frag)
    (lls cp : Nat) : findLastLineAux (fuel + 1) frag lls cp = lls := by
  rw [findLastLineAux, if_pos]
  rw [readLine_no_nl frag h]
  rcases frag with _ | ⟨c, cs⟩
  · left; rfl
  · right
    exact endsNl_eq_false_of_no_nl _ h

/-- With fuel exceeding the number of complete lines, the loop on a file
made of complete lines `ls` followed by a newline-free fragment returns
the offset where the last complete line starts (`lls` when there is
none). -/
theorem findLastLineAux_spec (ls : List Bytes) (frag : Bytes)
    (hls : ∀ l ∈ ls, LineOk l) (hf : '\n' ∉ frag) :
    ∀ fuel lls cp : Nat, ls.length < fuel →
      findLastLineAux fuel (ls.flatten ++ frag) lls cp =
        if ls = [] then lls else cp + (ls.dropLast.map List.length).sum := by
  induction ls with
  | nil =>
    intro fuel lls cp hfuel
    rcases fuel with _ | f
    · omega
    · simpa using findLastLineAux_stop f frag hf lls cp
  | cons l ls' ih =>
    intro fuel lls cp hfuel
    rcases fuel with _ | f
    · omega
    have hl : LineOk l := hls l (List.mem_cons_self l ls')
    have hls' : ∀ x ∈ ls', LineOk x := fun x hx => hls x (List.mem_cons_of_mem l hx)
    have h1 : (l :: ls').flatten ++ frag = l ++ (ls'.flatten ++ frag) := by
      simp
    have hf' : ls'.length < f := by
      simp only [List.length_cons] at hfuel
      omega
    rw [h1, findLastLineAux_step f l _ hl lls cp, ih hls' f cp (cp + l.length) hf']
    rcases ls' with _ | ⟨m, ms⟩
    · simp
    · simp [List.dropLast_cons₂]
      omega

/-- Each complete line is nonempty, so the line count is bounded by the
byte count and the fuel `content.length + 1` is never exhausted. -/
theorem lines_length_le_flatten (ls : List Bytes) (hls : ∀ l ∈ ls, LineOk l) :
    ls.length ≤ ls.flatten.length := by
  induction ls with
  | nil => simp
  | cons l ls' ih =>
    have hl : 0 < l.length := LineOk.length_pos l (hls l (List.mem_cons_self l ls'))
    have := ih fun x hx => hls x (List.mem_cons_of_mem l hx)
    simp only [List.length_cons, List.flatten_cons, List.length_append]
    omega

/-- Evaluates `find_last_line` on complete lines `ls` followed by a newline-free
fragment: the offset where the last complete line starts (0 when there is
none). -/
theorem find_last_line_spec (ls : List Bytes) (frag : Bytes)
    (hls : ∀ l ∈ ls, LineOk l) (hf : '\n' ∉ frag) :
    find_last_line (ls.flatten ++ frag) = (ls.dropLast.map List.length).sum := by
  unfold find_last_line
  have hb : ls.length < (ls.flatten ++ frag).length + 1 := by
    have := lines_length_le_flatten ls hls
    simp only [List.length_append]
    omega
  rw [findLastLineAux_spec ls frag hls hf _ 0 0 hb]
  rcases ls with _ | ⟨l, ls'⟩ <;> simp

/-! ### Evaluation lemmas for `dispatch` -/

theorem dispatch_none_eval (cbs : List (String × CallbackId))
    (positions : List (String × Nat)) (p : String) (env : Env)
    (h : alookup cbs p = none) :
    dispatch cbs positions p env = ⟨positions, [], false⟩ := by
  unfold dispatch
  rw [h]

theorem dispatch_open_eval (cbs : List (String × CallbackId))
    (positions : List (String × Nat)) (p : String) (cb : CallbackId)
    (sk rd : Bool) (hcb : alookup cbs p = some cb) :
    dispatch cbs positions p ⟨none, sk, rd⟩ =
      ⟨ainsert positions p ((alookup positions p).getD UMAX),
       [⟨cb, [], some ⟨ErrorKind.FileOpenError, p⟩⟩], false⟩ := by
  unfold dispatch
  rw [hcb]

theorem dispatch_seek_fail_eval (cbs : List (String × CallbackId))
    (positions : List (String × Nat)) (p : String) (cb : CallbackId) (o : Nat)
    (content : Bytes) (rd : Bool) (hcb : alookup cbs p = some cb)
    (hpos : alookup positions p = some o) (ho : o ≠ UMAX) :
    dispatch cbs positions p ⟨some content, false, rd⟩ =
      ⟨ainsert (ainsert positions p o) p o,
       [⟨cb, [], some ⟨ErrorKind.FileSeekError, p⟩⟩], false⟩ := by
  unfold dispatch
  rw [hcb, hpos]
  simp [ho]

theorem dispatch_read_eval (cbs : List (String × CallbackId))
    (positions : List (String × Nat)) (p : String) (cb : CallbackId) (o : Nat)
    (content : Bytes) (hcb : alookup cbs p = some cb)
    (hpos : alookup positions p = some o) (ho : o ≠ UMAX) :
    dispatch cbs positions p ⟨some content, true, true⟩ =
      if 0 < (readLine (content.drop o)).length ∧
          endsNl (readLine (content.drop o)) = true then
        ⟨ainsert (ainsert (ainsert positions p o) p o) p
            (o + (readLine (content.drop o)).length),
         [⟨cb, stripLine (readLine (content.drop o)), none⟩], false⟩
      else ⟨ainsert (ainsert positions p o) p o, [], false⟩ := by
  unfold dispatch
  rw [hcb, hpos]
  simp [ho]

theorem dispatch_read_panic_eval (cbs : List (String × CallbackId))
    (positions : List (String × Nat)) (p : String) (cb : CallbackId) (o : Nat)
    (content : Bytes) (hcb : alookup cbs p = some cb)
    (hpos : alookup positions p = some o) (ho : o ≠ UMAX) :
    dispatch cbs positions p ⟨some content, true, false⟩ =
      ⟨ainsert (ainsert positions p o) p o, [], true⟩ := by
  unfold dispatch
  rw [hcb, hpos]
  simp [ho]

theorem dispatch_uninit_read_eval (cbs : List (String × CallbackId))
    (positions : List (String × Nat)) (p : String) (cb : CallbackId)
    (content : Bytes) (hcb : alookup cbs p = some cb)
    (hpos : alookup positions p = none) :
    dispatch cbs positions p ⟨some content, true, true⟩ =
      if 0 < (readLine (content.drop (find_last_line content))).length ∧
          endsNl (readLine (content.drop (find_last_line content))) = true then
        ⟨ainsert (ainsert (ainsert positions p UMAX) p (find_last_line content)) p
            (find_last_line content + (readLine (content.drop (find_last_line content))).length),
         [⟨cb, stripLine (readLine (content.drop (find_last_line content))), none⟩],
         false⟩
      else ⟨ainsert (ainsert positions p UMAX) p (find_last_line content), [], false⟩ := by
  unfold dispatch
  rw [hcb, hpos]
  simp

theorem stripLine_concat_nl (a : Bytes) (h : a.getLast? ≠ some '\r') :
    stripLine (a ++ ['\n']) = a := by
  unfold stripLine
  rw [if_pos (endsNl_concat a), List.dropLast_concat, if_neg h]

/-! ### Claim theorems -/

/-- C8: when `File::open` fails the sink receives exactly one
open-failed `LogError` carrying the path; when the seek to an
already-resolved stored offset fails the sink receives exactly one
seek-failed `LogError` carrying the path.  In both cases every entry of
the position map reads back unchanged, and the task neither panics nor
touches other paths, so the dispatch loop continues. -/
theorem C8_open_seek_errors (cbs : List (String × CallbackId))
    (positions : List (String × Nat)) (p : String) (cb : CallbackId) (o : Nat)
    (hcb : alookup cbs p = some cb) (hpos : alookup positions p = some o)
    (ho : o ≠ UMAX) :
    (∀ sk rd : Bool,
      (dispatch cbs positions p ⟨none, sk, rd⟩).deliveries
          = [⟨cb, [], some ⟨ErrorKind.FileOpenError, p⟩⟩] ∧
      (∀ q, alookup (dispatch cbs positions p ⟨none, sk, rd⟩).positions q
          = alookup positions q) ∧
      (dispatch cbs positions p ⟨none, sk, rd⟩).panicked = false) ∧
    (∀ (content : Bytes) (rd : Bool),
      (dispatch cbs positions p ⟨some content, false, rd⟩).deliveries
          = [⟨cb, [], some ⟨ErrorKind.FileSeekError, p⟩⟩] ∧
      (∀ q, alookup (dispatch cbs positions p ⟨some content, false, rd⟩).positions q
          = alookup positions q) ∧
      (dispatch cbs positions p ⟨some content, false, rd⟩).panicked = false) := by
  constructor
  · intro sk rd
    rw [dispatch_open_eval cbs positions p cb sk rd hcb]
    refine ⟨rfl, fun q => ?_, rfl⟩
    rw [hpos]
    exact alookup_ainsert_of_lookup positions p o hpos q
  · intro content rd
    rw [dispatch_seek_fail_eval cbs positions p cb o content rd hcb hpos ho]
    refine ⟨rfl, fun q => ?_, rfl⟩
    rw [alookup_ainsert_of_lookup _ p o (alookup_ainsert_self positions p o) q]
    exact alookup_ainsert_of_lookup positions p o hpos q

theorem C8_open_seek_errors_witness :
    (dispatch [("p", 3)] [("p", 2)] "p" ⟨none, true, true⟩).deliveries
        = [⟨3, [], some ⟨ErrorKind.FileOpenError, "p"⟩⟩] ∧
    alookup (dispatch [("p", 3)] [("p", 2)] "p" ⟨none, true, true⟩).positions "p"
        = alookup [("p", 2)] "p" ∧
    (dispatch [("p", 3)] [("p", 2)] "p" ⟨some ['a'], false, true⟩).deliveries
        = [⟨3, [], some ⟨ErrorKind.FileSeekError, "p"⟩⟩] ∧
    alookup (dispatch [("p", 3)] [("p", 2)] "p" ⟨some ['a'], false, true⟩).positions "p"
        = alookup [("p", 2)] "p" := by
  have h := C8_open_seek_errors [("p", 3)] [("p", 2)] "p" 3 2
    (by decide) (by decide) (by decide)
  exact ⟨(h.1 true true).1, (h.1 true true).2.1 "p",
    (h.2 ['a'] true).1, (h.2 ['a'] true).2.1 "p"⟩

/-- C9: a path with no entry in the callback registry produces no sink
invocation and no state change at dispatch time, whatever the I/O
environment; in particular, after `stop_monitoring_file` a dispatch for
that path delivers nothing. -/
theorem C9_unregistered_no_delivery (cbs : List (String × CallbackId))
    (positions : List (String × Nat)) (p : String) (env : Env)
    (h : alookup cbs p = none) :
    dispatch cbs positions p env = ⟨positions, [], false⟩ ∧
    ∀ (norm : String → String) (w : LogWatcher) (q : String)
      (positions2 : List (String × Nat)) (env2 : Env),
      dispatch (stop_monitoring_file norm w q).log_callbacks positions2 (norm q) env2
        = ⟨positions2, [], false⟩ := by
  constructor
  · exact dispatch_none_eval cbs positions p env h
  · intro norm w q positions2 env2
    apply dispatch_none_eval
    unfold stop_monitoring_file
    simp [alookup_aerase]

theorem C9_unregistered_no_delivery_witness :
    dispatch [] [("q", 1)] "q" ⟨some ['a', '\n'], true, true⟩ = ⟨[("q", 1)], [], false⟩ ∧
    dispatch (stop_monitoring_file id ⟨[("q", 9)], some ["q"]⟩ "q").log_callbacks
        [("q", 1)] "q" ⟨some ['a', '\n'], true, true⟩ = ⟨[("q", 1)], [], false⟩ := by
  have h := C9_unregistered_no_delivery [] [("q", 1)] "q"
    ⟨some ['a', '\n'], true, true⟩ (by decide)
  exact ⟨h.1, h.2 id ⟨[("q", 9)], some ["q"]⟩ "q" [("q", 1)] ⟨some ['a', '\n'], true, true⟩⟩

/-- C10: after a successful open and seek, a failing `read_line` hits
`.unwrap()`: the task panics and no delivery at all is made to the sink;
and any error a dispatch does deliver is of kind open-failed or
seek-failed (the only constructors of `ErrorKind`). -/
theorem C10_read_error_panics (cbs : List (String × CallbackId))
    (positions : List (String × Nat)) (p : String) (cb : CallbackId) (o : Nat)
    (hcb : alookup cbs p = some cb) (hpos : alookup positions p = some o)
    (ho : o ≠ UMAX) :
    ((dispatch cbs positions p ⟨some [], true, false⟩).panicked = true ∧
     (dispatch cbs positions p ⟨some [], true, false⟩).deliveries = []) ∧
    (∀ (content : Bytes),
      (dispatch cbs positions p ⟨some content, true, false⟩).panicked = true ∧
      (dispatch cbs positions p ⟨some content, true, false⟩).deliveries = []) ∧
    (∀ (env : Env) (d : Delivery) (e : LogError),
      d ∈ (dispatch cbs positions p env).deliveries → d.error = some e →
      e.kind = ErrorKind.FileOpenError ∨ e.kind = ErrorKind.FileSeekError) := by
  refine ⟨?_, fun content => ?_, fun env d e _ _ => ?_⟩
  · rw [dispatch_read_panic_eval cbs positions p cb o [] hcb hpos ho]
    exact ⟨rfl, rfl⟩
  · rw [dispatch_read_panic_eval cbs positions p cb o content hcb hpos ho]
    exact ⟨rfl, rfl⟩
  · cases hk : e.kind
    · exact Or.inl rfl
    · exact Or.inr rfl

theorem C10_read_error_panics_witness :
    (dispatch [("p", 3)] [("p", 0)] "p" ⟨some ['a', '\n'], true, false⟩).panicked = true ∧
    (dispatch [("p", 3)] [("p", 0)] "p" ⟨some ['a', '\n'], true, false⟩).deliveries = [] := by
  have h := C10_read_error_panics [("p", 3)] [("p", 0)] "p" 3 0
    (by decide) (by decide) (by decide)
  exact h.2.1 ['a', '\n']

/-- C5: `find_last_line` scans the file line by line and returns the byte
offset at which the most recently completed line begins (for complete
lines `ls` followed by an unterminated fragment, the total length of all
lines but the last); an empty file resolves to 0, and the 8-byte file
`"0\n1\n2\n3\n"` resolves to 6. -/
theorem C5_find_last_line_correct :
    (∀ (ls : List Bytes) (frag : Bytes), (∀ l ∈ ls, LineOk l) → '\n' ∉ frag →
      find_last_line (ls.flatten ++ frag) = (ls.dropLast.map List.length).sum) ∧
    find_last_line [] = 0 ∧
    find_last_line ("0\n1\n2\n3\n".toList) = 6 := by
  refine ⟨fun ls frag hls hf => find_last_line_spec ls frag hls hf, by decide, by decide⟩

theorem C5_find_last_line_correct_witness :
    find_last_line ([['0', '\n'], ['1', '\n'], ['2', '\n'], ['3', '\n']].flatten ++ [])
      = ([['0', '\n'], ['1', '\n'], ['2', '\n'], ['3', '\n']].dropLast.map List.length).sum :=
  C5_find_last_line_correct.1 [['0', '\n'], ['1', '\n'], ['2', '\n'], ['3', '\n']] []
    (by decide) (by decide)

/-- C6: when the line read at a resolved stored offset is a full
newline-terminated line, the stored offset advances by exactly the
consumed length (terminator included) and the delivered text is the line
with the newline and a preceding carriage return stripped; concretely,
the bytes `"abc\r\n"` deliver as `"abc"`. -/
theorem C6_full_line_advances_and_strips (cbs : List (String × CallbackId))
    (positions : List (String × Nat)) (p : String) (cb : CallbackId) (o : Nat)
    (content : Bytes) (hcb : alookup cbs p = some cb)
    (hpos : alookup positions p = some o) (ho : o ≠ UMAX)
    (hlen : 0 < (readLine (content.drop o)).length)
    (hnl : endsNl (readLine (content.drop o)) = true) :
    (dispatch cbs positions p ⟨some content, true, true⟩).deliveries
        = [⟨cb, stripLine (readLine (content.drop o)), none⟩] ∧
    alookup (dispatch cbs positions p ⟨some content, true, true⟩).positions p
        = some (o + (readLine (content.drop o)).length) ∧
    stripLine ("abc\r\n".toList) = "abc".toList := by
  rw [dispatch_read_eval cbs positions p cb o content hcb hpos ho,
    if_pos ⟨hlen, hnl⟩]
  exact ⟨rfl, alookup_ainsert_self _ p _, by decide⟩

theorem C6_full_line_advances_and_strips_witness :
    (dispatch [("p", 5)] [("p", 2)] "p"
        ⟨some ("0\nabc\r\n".toList), true, true⟩).deliveries
      = [⟨5, stripLine (readLine (("0\nabc\r\n".toList).drop 2)), none⟩] ∧
    alookup (dispatch [("p", 5)] [("p", 2)] "p"
        ⟨some ("0\nabc\r\n".toList), true, true⟩).positions "p"
      = some (2 + (readLine (("0\nabc\r\n".toList).drop 2)).length) ∧
    stripLine ("abc\r\n".toList) = "abc".toList :=
  C6_full_line_advances_and_strips [("p", 5)] [("p", 2)] "p" 5 2 ("0\nabc\r\n".toList)
    (by decide) (by decide) (by decide) (by decide) (by decide)

/-- C7: when the read at a resolved stored offset yields zero bytes or an
unterminated trailing fragment, no delivery is made and every position
entry reads back unchanged; once the fragment is completed by appending
`done ++ "\n"`, the very next dispatch delivers exactly one line, the
joined fragment, and advances the offset past the terminator. -/
theorem C7_fragment_no_delivery_then_joined (cbs : List (String × CallbackId))
    (positions : List (String × Nat)) (p : String) (cb : CallbackId) (o : Nat)
    (pre frag : Bytes) (hcb : alookup cbs p = some cb)
    (hpos : alookup positions p = some o) (ho : o ≠ UMAX)
    (hpre : pre.length = o) (hfrag : '\n' ∉ frag) :
    (dispatch cbs positions p ⟨some (pre ++ frag), true, true⟩).deliveries = [] ∧
    (∀ q, alookup (dispatch cbs positions p ⟨some (pre ++ frag), true, true⟩).positions q
        = alookup positions q) ∧
    (∀ done : Bytes, '\n' ∉ done → (frag ++ done).getLast? ≠ some '\r' →
      (dispatch cbs
          (dispatch cbs positions p ⟨some (pre ++ frag), true, true⟩).positions p
          ⟨some (pre ++ (frag ++ (done ++ ['\n']))), true, true⟩).deliveries
        = [⟨cb, frag ++ done, none⟩] ∧
      alookup (dispatch cbs
          (dispatch cbs positions p ⟨some (pre ++ frag), true, true⟩).positions p
          ⟨some (pre ++ (frag ++ (done ++ ['\n']))), true, true⟩).positions p
        = some (o + (frag.length + done.length + 1))) := by
  have hdrop : (pre ++ frag).drop o = frag := by
    rw [← hpre]
    exact List.drop_left pre frag
  have hline : readLine ((pre ++ frag).drop o) = frag := by
    rw [hdrop]
    exact readLine_no_nl frag hfrag
  have hcond : ¬(0 < (readLine ((pre ++ frag).drop o)).length ∧
      endsNl (readLine ((pre ++ frag).drop o)) = true) := by
    rw [hline]
    rcases frag with _ | ⟨c, cs⟩
    · simp
    · rw [endsNl_eq_false_of_no_nl _ hfrag]
      simp
  have h1 : dispatch cbs positions p ⟨some (pre ++ frag), true, true⟩
      = ⟨ainsert (ainsert positions p o) p o, [], false⟩ := by
    rw [dispatch_read_eval cbs positions p cb o (pre ++ frag) hcb hpos ho, if_neg hcond]
  have hq : ∀ q, alookup (ainsert (ainsert positions p o) p o) q = alookup positions q := by
    intro q
    rw [alookup_ainsert_of_lookup _ p o (alookup_ainsert_self positions p o) q]
    exact alookup_ainsert_of_lookup positions p o hpos q
  refine ⟨by rw [h1], by rw [h1]; exact hq, ?_⟩
  intro done hdone hcr
  have hnl2 : '\n' ∉ frag ++ done := by
    simp only [List.mem_append, not_or]
    exact ⟨hfrag, hdone⟩
  have hdrop2 : (pre ++ (frag ++ (done ++ ['\n']))).drop o = frag ++ (done ++ ['\n']) := by
    rw [← hpre]
    exact List.drop_left pre _
  have hline2 : readLine ((pre ++ (frag ++ (done ++ ['\n']))).drop o)
      = (frag ++ done) ++ ['\n'] := by
    rw [hdrop2]
    have : frag ++ (done ++ ['\n']) = (frag ++ done) ++ '\n' :: [] := by simp
    rw [this]
    exact readLine_append_nl (frag ++ done) [] hnl2
  have hpos2 : alookup (dispatch cbs positions p
      ⟨some (pre ++ frag), true, true⟩).positions p = some o := by
    rw [h1]
    exact alookup_ainsert_self _ p o
  rw [h1] at hpos2 ⊢
  have hcond2 : 0 < (readLine (((pre ++ (frag ++ (done ++ ['\n']))).drop o))).length ∧
      endsNl (readLine (((pre ++ (frag ++ (done ++ ['\n']))).drop o))) = true := by
    rw [hline2]
    constructor
    · simp
    · exact endsNl_concat _
  rw [dispatch_read_eval cbs _ p cb o _ hcb hpos2 ho, if_pos hcond2]
  constructor
  · rw [hline2, stripLine_concat_nl _ hcr]
  · rw [alookup_ainsert_self]
    rw [hline2]
    simp
    omega

theorem C7_fragment_no_delivery_then_joined_witness :
    (dispatch [("p", 4)] [("p", 0)] "p"
        ⟨some (([] : Bytes) ++ "partial".toList), true, true⟩).deliveries = [] ∧
    alookup (dispatch [("p", 4)] [("p", 0)] "p"
        ⟨some (([] : Bytes) ++ "partial".toList), true, true⟩).positions "p"
      = alookup [("p", 0)] "p" ∧
    (dispatch [("p", 4)]
        (dispatch [("p", 4)] [("p", 0)] "p"
          ⟨some (([] : Bytes) ++ "partial".toList), true, true⟩).positions "p"
        ⟨some (([] : Bytes) ++ ("partial".toList ++ ("-done".toList ++ ['\n']))),
          true, true⟩).deliveries
      = [⟨4, "partial".toList ++ "-done".toList, none⟩] := by
  have h := C7_fragment_no_delivery_then_joined [("p", 4)] [("p", 0)] "p" 4 0
    [] ("partial".toList) (by decide) (by decide) (by decide) (by decide) (by decide)
  exact ⟨h.1, h.2.1 "p", (h.2.2 ("-done".toList) (by decide) (by decide)).1⟩

/-- C3 (counterexample): the claim says the registry and position-map
locks are never held across the sink invocation; in the spawned task's
trace both locks are held when `invokeSink` executes. -/
theorem C3_locks_held_at_sink_cex :
    LockId.callbacksLock ∈ locksHeldAt dispatchTaskTrace Action.invokeSink ∧
    LockId.positionsLock ∈ locksHeldAt dispatchTaskTrace Action.invokeSink := by
  decide

/-- C3 (amended): both the registry (callback-map) lock and the
position-map lock are acquired at the start of the spawned task and held
across file open, seek, read, and the sink invocation, being released
only when the task's block ends. -/
theorem C3_locks_held_across_io_and_sink :
    locksHeldAt dispatchTaskTrace Action.fileOpen
        = [LockId.positionsLock, LockId.callbacksLock] ∧
    locksHeldAt dispatchTaskTrace Action.fileSeek
        = [LockId.positionsLock, LockId.callbacksLock] ∧
    locksHeldAt dispatchTaskTrace Action.fileRead
        = [LockId.positionsLock, LockId.callbacksLock] ∧
    locksHeldAt dispatchTaskTrace Action.invokeSink
        = [LockId.positionsLock, LockId.callbacksLock] := by
  decide

/-- C2 (counterexample): the claim says a path registered after
monitoring has started is subscribed with the Event Source; here a path
registered after `monitoring` stored the watcher is in the registry but
the watcher's subscription list is still empty. -/
theorem C2_register_after_start_not_watched_cex :
    alookup (register id (monitoring_start LogWatcher.new) "/a" 0).log_callbacks "/a"
        = some 0 ∧
    (register id (monitoring_start LogWatcher.new) "/a" 0).watched = some [] := by
  decide

/-- C2 (amended): `register` normalises the path and inserts the sink
under the normalised key, silently overwriting any prior sink and leaving
other entries untouched — but it does not subscribe with the Event
Source: the watcher state is unchanged, and only `monitoring` subscribes
the paths registered at the moment it starts. -/
theorem C2_register_inserts_no_subscribe (norm : String → String) (w : LogWatcher)
    (p : String) (cb : CallbackId) :
    (register norm w p cb).watched = w.watched ∧
    alookup (register norm w p cb).log_callbacks (norm p) = some cb ∧
    (∀ q, q ≠ norm p → alookup (register norm w p cb).log_callbacks q
        = alookup w.log_callbacks q) ∧
    (monitoring_start w).watched = some (w.log_callbacks.map Prod.fst) := by
  refine ⟨rfl, alookup_ainsert_self _ _ _, fun q hq => ?_, rfl⟩
  show alookup (ainsert w.log_callbacks (norm p) cb) q = alookup w.log_callbacks q
  rw [alookup_ainsert, if_neg hq]

theorem C2_register_inserts_no_subscribe_witness :
    (register id ⟨[("b", 1)], some ["b"]⟩ "a" 0).watched = some ["b"] ∧
    alookup (register id ⟨[("b", 1)], some ["b"]⟩ "a" 0).log_callbacks "a" = some 0 ∧
    alookup (register id ⟨[("b", 1)], some ["b"]⟩ "a" 0).log_callbacks "b"
        = alookup [("b", 1)] "b" := by
  have h := C2_register_inserts_no_subscribe id ⟨[("b", 1)], some ["b"]⟩ "a" 0
  exact ⟨h.1, h.2.1, h.2.2.1 "b" (by decide)⟩

/-- C1 (counterexample): after `rename(A, B)` with accumulated offset 4
stored for `A`, a dispatch for `B` does not resume at offset 4: the
position entry was not moved, so the offset is re-resolved with
`find_last_line` (here 3) and the delivered line is `"yyyy"`, not the
line starting at the accumulated offset. -/
theorem C1_rename_offset_not_carried_cex :
    (change_file_path id ⟨[("A", 7)], some ["A"]⟩ "A" "B").log_callbacks = [("B", 7)] ∧
    (dispatch (change_file_path id ⟨[("A", 7)], some ["A"]⟩ "A" "B").log_callbacks
        [("A", 4)] "B" ⟨some ("xx\nyyyy\n".toList), true, true⟩).deliveries
      = [⟨7, "yyyy".toList, none⟩] ∧
    (dispatch (change_file_path id ⟨[("A", 7)], some ["A"]⟩ "A" "B").log_callbacks
        [("A", 4)] "B" ⟨some ("xx\nyyyy\n".toList), true, true⟩).deliveries
      ≠ [⟨7, stripLine (readLine (("xx\nyyyy\n".toList).drop 4)), none⟩] := by
  decide

/-- C1 (amended): `change_file_path(A, B)` is a no-op when `A` has no
entry; otherwise it moves the sink (same identity) to key `B`, after
which a dispatch for `A` delivers nothing — but the accumulated offset
does not carry over: the position entry stays keyed under `A`, and the
first dispatch for `B` re-resolves its offset with `find_last_line`. -/
theorem C1_rename_moves_sink_offset_reset (norm : String → String) (w : LogWatcher)
    (old_path new_path : String) (cb : CallbackId) :
    (alookup w.log_callbacks (norm old_path) = none →
      change_file_path norm w old_path new_path = w) ∧
    (alookup w.log_callbacks (norm old_path) = some cb → norm old_path ≠ new_path →
      alookup (change_file_path norm w old_path new_path).log_callbacks new_path
          = some cb ∧
      alookup (change_file_path norm w old_path new_path).log_callbacks (norm old_path)
          = none ∧
      (∀ (positions : List (String × Nat)) (env : Env),
        dispatch (change_file_path norm w old_path new_path).log_callbacks positions
          (norm old_path) env = ⟨positions, [], false⟩) ∧
      (∀ (positions : List (String × Nat)) (content : Bytes),
        alookup positions new_path = none →
        (dispatch (change_file_path norm w old_path new_path).log_callbacks positions
            new_path ⟨some content, true, true⟩).deliveries
          = (if 0 < (readLine (content.drop (find_last_line content))).length ∧
                endsNl (readLine (content.drop (find_last_line content))) = true then
              [⟨cb, stripLine (readLine (content.drop (find_last_line content))), none⟩]
            else []))) := by
  constructor
  · intro h
    unfold change_file_path
    rw [h]
  · intro h hne
    have hcbs : (change_file_path norm w old_path new_path).log_callbacks
        = ainsert (aerase w.log_callbacks (norm old_path)) new_path cb := by
      unfold change_file_path
      rw [h]
    have hold : alookup (change_file_path norm w old_path new_path).log_callbacks
        (norm old_path) = none := by
      rw [hcbs, alookup_ainsert, if_neg hne, alookup_aerase, if_pos rfl]
    refine ⟨?_, hold, ?_, ?_⟩
    · rw [hcbs]
      exact alookup_ainsert_self _ _ _
    · intro positions env
      exact dispatch_none_eval _ positions _ env hold
    · intro positions content hp
      have hlook : alookup (change_file_path norm w old_path new_path).log_callbacks
          new_path = some cb := by
        rw [hcbs]
        exact alookup_ainsert_self _ _ _
      rw [dispatch_uninit_read_eval _ positions new_path cb content hlook hp]
      by_cases hc : 0 < (readLine (content.drop (find_last_line content))).length ∧
          endsNl (readLine (content.drop (find_last_line content))) = true
      · rw [if_pos hc, if_pos hc]
      · rw [if_neg hc, if_neg hc]

theorem C1_rename_moves_sink_offset_reset_witness :
    alookup (change_file_path id ⟨[("A", 7)], some ["A"]⟩ "A" "B").log_callbacks "B"
        = some 7 ∧
    dispatch (change_file_path id ⟨[("A", 7)], some ["A"]⟩ "A" "B").log_callbacks
        [("A", 4)] "A" ⟨some [], true, true⟩ = ⟨[("A", 4)], [], false⟩ ∧
    (dispatch (change_file_path id ⟨[("A", 7)], some ["A"]⟩ "A" "B").log_callbacks
        [("A", 4)] "B" ⟨some ("xx\nyyyy\n".toList), true, true⟩).deliveries
      = (if 0 < (readLine (("xx\nyyyy\n".toList).drop
              (find_last_line ("xx\nyyyy\n".toList)))).length ∧
            endsNl (readLine (("xx\nyyyy\n".toList).drop
              (find_last_line ("xx\nyyyy\n".toList)))) = true then
          [⟨7, stripLine (readLine (("xx\nyyyy\n".toList).drop
              (find_last_line ("xx\nyyyy\n".toList)))), none⟩]
        else []) := by
  have h := (C1_rename_moves_sink_offset_reset id ⟨[("A", 7)], some ["A"]⟩ "A" "B" 7).2
    (by decide) (by decide)
  exact ⟨h.1, h.2.2.1 [("A", 4)] ⟨some [], true, true⟩,
    h.2.2.2 [("A", 4)] ("xx\nyyyy\n".toList) (by decide)⟩

/-- Each event appends one complete line and is dispatched with the
stored offset sitting at the end of the previous content: every line is
delivered in order. -/
theorem dispatchMany_per_line (p : String) (cb : CallbackId) :
    ∀ (ls : List Bytes) (pre : Bytes) (positions : List (String × Nat)),
      (∀ l ∈ ls, LineOk l) → alookup positions p = some pre.length →
      pre.length + (ls.map List.length).sum < UMAX →
      (dispatchMany [(p, cb)] positions (lineEventsFrom p pre ls)).2
        = ls.map (fun l => ⟨cb, stripLine l, none⟩) := by
  intro ls
  induction ls with
  | nil => intro pre positions _ _ _; rfl
  | cons l ls' ih =>
    intro pre positions hls hpos hsum
    have hl : LineOk l := hls l (List.mem_cons_self l ls')
    have hls' : ∀ x ∈ ls', LineOk x := fun x hx => hls x (List.mem_cons_of_mem l hx)
    simp only [List.map_cons, List.sum_cons] at hsum
    have ho : pre.length ≠ UMAX := by omega
    have hcb : alookup [(p, cb)] p = some cb := by simp [alookup]
    have hline : readLine ((pre ++ l).drop pre.length) = l := by
      rw [List.drop_left]
      have h0 := readLine_of_lineOk l [] hl
      rwa [List.append_nil] at h0
    have hcond : 0 < (readLine ((pre ++ l).drop pre.length)).length ∧
        endsNl (readLine ((pre ++ l).drop pre.length)) = true := by
      rw [hline]
      exact ⟨LineOk.length_pos l hl, LineOk.endsNl l hl⟩
    have hd : dispatch [(p, cb)] positions p ⟨some (pre ++ l), true, true⟩
        = ⟨ainsert (ainsert (ainsert positions p pre.length) p pre.length) p
            (pre.length + l.length), [⟨cb, stripLine l, none⟩], false⟩ := by
      rw [dispatch_read_eval [(p, cb)] positions p cb pre.length (pre ++ l) hcb hpos ho,
        if_pos hcond, hline]
    have hpos' : alookup (ainsert (ainsert (ainsert positions p pre.length) p
        pre.length) p (pre.length + l.length)) p = some (pre ++ l).length := by
      rw [alookup_ainsert_self, List.length_append]
    have hsum' : (pre ++ l).length + (ls'.map List.length).sum < UMAX := by
      rw [List.length_append]
      omega
    simp only [lineEventsFrom, dispatchMany, hd]
    rw [ih (pre ++ l) _ hls' hpos' hsum']
    simp

/-- C4 (counterexample): the claim says a registered file with lines
L1..Ln yields deliveries L1..Ln regardless of how notifications
coalesce (with the opt-out of last-line skipping); `register` accepts no
such option, and a single coalesced notification for the 2-line file
`"0\n1\n"` delivers only `"1"` — the offset is resolved at the last
line's start and one notification reads at most one line. -/
theorem C4_single_notification_not_full_history_cex :
    (dispatchMany [("p", 0)] [] [("p", ⟨some ("0\n1\n".toList), true, true⟩)]).2
        = [⟨0, ['1'], none⟩] ∧
    (dispatchMany [("p", 0)] [] [("p", ⟨some ("0\n1\n".toList), true, true⟩)]).2
        ≠ [⟨0, ['0'], none⟩, ⟨0, ['1'], none⟩] := by
  decide

/-- C4 (amended): `register` takes no options, the first dispatch always
resolves the offset with `find_last_line`, and each notification reads at
most one line.  Starting from an empty registered file, if every appended
line is followed by its own qualifying notification, the sink receives
exactly L1..Ln in order (the first dispatch sees the one-line file, whose
last-line start is 0). -/
theorem C4_per_line_events_deliver_in_order (p : String) (cb : CallbackId)
    (ls : List Bytes) (hls : ∀ l ∈ ls, LineOk l)
    (hsum : (ls.map List.length).sum < UMAX) :
    (dispatchMany [(p, cb)] [] (lineEventsFrom p [] ls)).2
      = ls.map (fun l => ⟨cb, stripLine l, none⟩) := by
  cases ls with
  | nil => rfl
  | cons l ls' =>
    have hl : LineOk l := hls l (List.mem_cons_self l ls')
    have hls' : ∀ x ∈ ls', LineOk x := fun x hx => hls x (List.mem_cons_of_mem l hx)
    simp only [List.map_cons, List.sum_cons] at hsum
    have hcb : alookup [(p, cb)] p = some cb := by simp [alookup]
    have h0 : find_last_line l = 0 := by
      have h := find_last_line_spec [l] []
        (fun x hx => by rwa [List.mem_singleton.mp hx]) (by simp)
      simpa using h
    have hline : readLine (l.drop 0) = l := by
      rw [List.drop_zero]
      have h1 := readLine_of_lineOk l [] hl
      rwa [List.append_nil] at h1
    have hcond : 0 < (readLine (l.drop (find_last_line l))).length ∧
        endsNl (readLine (l.drop (find_last_line l))) = true := by
      rw [h0, hline]
      exact ⟨LineOk.length_pos l hl, LineOk.endsNl l hl⟩
    have hd : dispatch [(p, cb)] [] p ⟨some (([] : Bytes) ++ l), true, true⟩
        = ⟨ainsert (ainsert (ainsert [] p UMAX) p 0) p (0 + l.length),
           [⟨cb, stripLine l, none⟩], false⟩ := by
      rw [List.nil_append,
        dispatch_uninit_read_eval [(p, cb)] [] p cb l hcb rfl, if_pos hcond, h0,
        List.drop_zero]
      have h1 := readLine_of_lineOk l [] hl
      rw [List.append_nil] at h1
      rw [h1]
    have hpos' : alookup (ainsert (ainsert (ainsert [] p UMAX) p 0) p (0 + l.length)) p
        = some (([] : Bytes) ++ l).length := by
      rw [alookup_ainsert_self, List.nil_append]
      simp
    have hsum' : (([] : Bytes) ++ l).length + (ls'.map List.length).sum < UMAX := by
      rw [List.nil_append]
      omega
    simp only [lineEventsFrom, dispatchMany, hd]
    rw [dispatchMany_per_line p cb ls' (([] : Bytes) ++ l) _ hls' hpos' hsum']
    simp

theorem C4_per_line_events_deliver_in_order_witness :
    (dispatchMany [("p", 0)] []
        (lineEventsFrom "p" [] [['t', '1', '\n'], ['t', '2', '\n']])).2
      = [['t', '1', '\n'], ['t', '2', '\n']].map (fun l => ⟨0, stripLine l, none⟩) :=
  C4_per_line_events_deliver_in_order "p" 0 [['t', '1', '\n'], ['t', '2', '\n']]
    (by decide) (by decide)

end AsyncLogWatch
